import Mathlib

/-!
Verification development for the Secretary-AI transcript integration engine
(`src/transcript_integrator/integrator.py`).

The Python engine is embedded shallowly:

* Python dicts keyed by lower-cased display names become insertion-ordered
  association lists (`Catalog`).
* CPython string primitives used by the engine (`str.lower`, `str.strip`,
  `str.startswith`, slicing, code-point-wise comparison) are embedded as
  structural functions over `List Char`; they agree with CPython on the
  ASCII inputs exercised here.
* `difflib.SequenceMatcher.ratio` / `difflib.get_close_matches(word, keys,
  n=1, cutoff)` are embedded faithfully (no junk heuristics: `autojunk` only
  activates for sequences of 200+ elements, far beyond catalog name
  lengths).  Ratios are compared exactly by integer cross-multiplication;
  CPython compares IEEE floats, which agrees with the exact comparison on
  every instance appearing here.  `seqRatioQ` states the ratio as a
  rational for specification-level theorems.
* The external JSON parser (`json.loads`) and date parser
  (`datetime.strptime(_, "%Y-%m-%d")`) are taken as function parameters of
  the pipeline; theorems quantify over their behaviour.
* The SQLAlchemy store is a record of row lists.  Each
  `async with session.begin():` block of the source is one atomic step: it
  either applies all of its inserts or (on an injected commit failure)
  leaves the store untouched.  The source runs three such blocks per call
  (`_process_topics`, `_process_tasks`, `_insert_into_database`), which the
  embedding mirrors with three transaction-outcome flags.
-/

namespace SecretaryAI

/-! ## CPython string primitives -/

/-- `str.lower` on the ASCII range (catalog names and extracted names in all
instances here are ASCII; CPython additionally lowers non-ASCII letters). -/
def charLowerPy (c : Char) : Char :=
  if 'A' ≤ c ∧ c ≤ 'Z' then Char.ofNat (c.toNat + 32) else c

/-- `s.lower()`. -/
def lowerPy (s : String) : String := ⟨s.data.map charLowerPy⟩

/-- Default `str.strip` whitespace (ASCII subset; CPython also strips some
non-ASCII whitespace, which never occurs in the inputs considered here). -/
def isSpacePy (c : Char) : Bool :=
  c == ' ' || c == '\t' || c == '\n' || c == '\r' || c == '\x0b' || c == '\x0c'

/-- `s.strip()`. -/
def stripPy (s : String) : String :=
  ⟨((s.data.dropWhile isSpacePy).reverse.dropWhile isSpacePy).reverse⟩

/-- `s.startswith(pre)`. -/
def startsWithPy (s pre : String) : Bool := pre.data.isPrefixOf s.data

/-- `s.endswith(suf)`. -/
def endsWithPy (s suf : String) : Bool := suf.data.reverse.isPrefixOf s.data.reverse

/-- `s[n:]`. -/
def dropPy (s : String) (n : Nat) : String := ⟨s.data.drop n⟩

/-- `s[:-n]` for `n ≤ len(s)`. -/
def dropRightPy (s : String) (n : Nat) : String := ⟨s.data.take (s.data.length - n)⟩

/-- `len(s)` (number of code points). -/
def lenPy (s : String) : Nat := s.data.length

/-- CPython `str <`: code-point-wise lexicographic comparison. -/
def listLtPy : List Char → List Char → Bool
  | [], [] => false
  | [], _ :: _ => true
  | _ :: _, [] => false
  | a :: as, b :: bs => if a < b then true else if b < a then false else listLtPy as bs

/-- CPython `a < b` on strings. -/
def strLtPy (a b : String) : Bool := listLtPy a.data b.data

/-! ## Python dict model (insertion-ordered association list) -/

/-- Insertion-ordered mapping, as a Python `dict` keyed by strings. -/
abbrev Catalog (α : Type) := List (String × α)

/-- `d[k]` / `k in d`: first binding of `k` (keys are unique in practice). -/
def dictLookup {α : Type} (d : Catalog α) (k : String) : Option α :=
  (d.find? (fun p => p.1 == k)).map (fun p => p.2)

/-- `d.keys()` in insertion order. -/
def dictKeys {α : Type} (d : Catalog α) : List String := d.map (fun p => p.1)

/-- `d[k] = v`: overwrite in place if present, else append (Python 3.7+ dict). -/
def dictInsert {α : Type} (d : Catalog α) (k : String) (v : α) : Catalog α :=
  if (d.find? (fun p => p.1 == k)).isSome
  then d.map (fun p => if p.1 == k then (k, v) else p)
  else d ++ [(k, v)]

/-! ## difflib model

`SequenceMatcher.find_longest_match` dynamic programming, junk-free. -/

/-- A matching block `(i, j, size)` as returned by `find_longest_match`. -/
structure LMatch where
  i : Nat
  j : Nat
  size : Nat
deriving Repr, DecidableEq

/-- Entry `j` of the `j2len` table at outer index `i`: the length of the
common suffix of `a[alo .. i]` and `b[blo .. j]`, `0` if `a[i] ≠ b[j]`.
This is exactly the value the CPython loop stores in `newj2len[j]`
(positions below the window contribute nothing to the table). -/
def suffLen (a b : List Char) (alo blo : Nat) : Nat → Nat → Nat
  | 0, j => if alo ≤ 0 ∧ blo ≤ j ∧ a.getD 0 ' ' == b.getD j ' ' then 1 else 0
  | i + 1, j =>
    if alo ≤ i + 1 ∧ blo ≤ j ∧ a.getD (i + 1) ' ' == b.getD j ' ' then
      (match j with
       | 0 => 0
       | j' + 1 => suffLen a b alo blo i j') + 1
    else 0

/-- The `b2j` index of `SequenceMatcher`: the ascending positions of `c`
in `b`. -/
def b2j (b : List Char) (c : Char) : List Nat :=
  (List.range b.length).filter (fun j => b.getD j ' ' == c)

/-- `find_longest_match(alo, ahi, blo, bhi)` with no junk elements: scan
`i` in increasing order and, for each, the positions of `a[i]` in `b` in
increasing order (skipping those outside the window, as the
`continue` / `break` pair does), updating only on a strictly larger match,
exactly as the CPython loop does.  The post-loop junk-extension `while`
loops of CPython are no-ops without junk. -/
def findLongestMatch (a b : List Char) (alo ahi blo bhi : Nat) : LMatch :=
  (List.range' alo (ahi - alo)).foldl (fun best i =>
    (b2j b (a.getD i ' ')).foldl (fun bst j =>
      if blo ≤ j ∧ j < bhi then
        let k := suffLen a b alo blo i j
        if k > bst.size then ⟨i + 1 - k, j + 1 - k, k⟩ else bst
      else bst) best) ⟨alo, blo, 0⟩

/-- Total size of all matching blocks (the `sum` over
`get_matching_blocks`), by the recursive longest-match decomposition.
The fuel argument strictly exceeds the recursion depth at every call site. -/
def matchTotalFuel : Nat → List Char → List Char → Nat → Nat → Nat → Nat → Nat
  | 0, _, _, _, _, _, _ => 0
  | fuel + 1, a, b, alo, ahi, blo, bhi =>
    let m := findLongestMatch a b alo ahi blo bhi
    if m.size = 0 then 0
    else
      matchTotalFuel fuel a b alo m.i blo m.j + m.size +
        matchTotalFuel fuel a b (m.i + m.size) ahi (m.j + m.size) bhi

/-- Total matched element count between two whole sequences. -/
def matchTotal (a b : List Char) : Nat :=
  matchTotalFuel (a.length + b.length + 1) a b 0 a.length 0 b.length

/-- Numerator of `SequenceMatcher(a=x, b=word).ratio()`
(`difflib._calculate_ratio`: `2.0 * matches / length`, `1.0` when both
sequences are empty; `get_close_matches` sets `seq2` to the word and `seq1`
to each candidate). -/
def ratioNum (x word : String) : Nat :=
  if x.data.length + word.data.length = 0 then 1 else 2 * matchTotal x.data word.data

/-- Denominator of the ratio; always positive. -/
def ratioDen (x word : String) : Nat :=
  if x.data.length + word.data.length = 0 then 1 else x.data.length + word.data.length

/-- The similarity ratio as an exact rational, for specification statements. -/
def seqRatioQ (x word : String) : ℚ := (ratioNum x word : ℚ) / (ratioDen x word : ℚ)

/-- `cutoff ≤ ratio` by exact cross-multiplication, cutoff = `num / den`. -/
def ratioGeB (x word : String) (num den : Nat) : Bool :=
  decide (num * ratioDen x word ≤ ratioNum x word * den)

/-- Keep the better of a running best and the next candidate: higher ratio
wins; on equal ratios the lexicographically larger string wins, which is how
`heapq.nlargest` orders `(score, string)` pairs. -/
def gcmStep (word : String) (best : Option String) (x : String) : Option String :=
  match best with
  | none => some x
  | some b =>
    if ratioNum b word * ratioDen x word < ratioNum x word * ratioDen b word ∨
        (ratioNum b word * ratioDen x word = ratioNum x word * ratioDen b word ∧
          strLtPy b x = true) then some x else some b

/-- `difflib.get_close_matches(word, keys, n=1, cutoff=num/den)`: the single
best candidate whose ratio meets the cutoff, or `none`. -/
def getCloseMatches1 (word : String) (keys : List String) (num den : Nat) : Option String :=
  (keys.filter (fun x => ratioGeB x word num den)).foldl (gcmStep word) none

/-! ## Catalog records (`_load_committee_members`, `_load_projects`,
`_load_topics` store these under the lower-cased name) -/

/-- A committee-member catalog entry. -/
structure MemberRec where
  id : Nat
  name : String
  subcommittee : String
  role : String
deriving Repr, DecidableEq

/-- A project catalog entry. -/
structure ProjectRec where
  id : Nat
  name : String
  description : String
deriving Repr, DecidableEq

/-- A topic catalog entry; doubles as a `topic` table row
`(topic_id, topic_name, topic_description)`. -/
structure TopicRec where
  id : Nat
  name : String
  description : String
deriving Repr, DecidableEq

/-- The in-memory context caches of a `TranscriptIntegrator` instance. -/
structure IntegState where
  committee_members : Catalog MemberRec
  projects : Catalog ProjectRec
  topics : Catalog TopicRec
deriving Repr, DecidableEq

/-- `MEETING_TYPES` from the source module. -/
def MEETING_TYPES : List String :=
  ["executive", "projects_subcommittee", "events_subcommittee",
   "sponsorships_subcommittee", "marketing_subcommittee",
   "content-creation_subcommittee", "hr_subcommittee", "full", "unscheduled"]

/-! ## Entity resolution (`_match_members`, `_match_projects`, and the
assignee loop of `_process_tasks`, which repeats the member logic) -/

/-- One iteration of the `_match_members` loop (also the assignee-matching
block of `_process_tasks`, which duplicates it verbatim over
`member_lookup`): exact lower-cased lookup first, else fuzzy at cutoff 0.7.
The inner `none` branch is unreachable: a key returned by the matcher is a
key of the dict. -/
def resolveMemberIn (cat : Catalog MemberRec) (name : String) : Option MemberRec :=
  let key := lowerPy name
  match dictLookup cat key with
  | some m => some m
  | none =>
    match getCloseMatches1 key (dictKeys cat) 7 10 with
    | some mk => dictLookup cat mk
    | none => none

/-- One iteration of the `_match_projects` loop: exact lookup first, else
fuzzy at the looser cutoff 0.6. -/
def resolveProjectIn (cat : Catalog ProjectRec) (name : String) : Option ProjectRec :=
  let key := lowerPy name
  match dictLookup cat key with
  | some p => some p
  | none =>
    match getCloseMatches1 key (dictKeys cat) 6 10 with
    | some mk => dictLookup cat mk
    | none => none

/-- The shared accumulation step of the `_match_members` /
`_match_projects` loops: append the resolved record, silently skip an
unresolved name. -/
def resolveFoldStep {α : Type} (f : String → Option α) (acc : List α) (name : String) :
    List α :=
  match f name with
  | some m => acc ++ [m]
  | none => acc

/-- `_match_members`: accumulate resolved records, silently skipping
unresolved names. -/
def matchMembers (cat : Catalog MemberRec) (names : List String) : List MemberRec :=
  names.foldl (resolveFoldStep (resolveMemberIn cat)) []

/-- `_match_projects`: accumulate resolved records, silently skipping
unresolved names. -/
def matchProjects (cat : Catalog ProjectRec) (names : List String) : List ProjectRec :=
  names.foldl (resolveFoldStep (resolveProjectIn cat)) []

/-! ## Topic processing (`_process_topics`) -/

/-- An element of the `topics` extraction output, after the JSON boundary
(the `is_existing` hint is never read by the engine). -/
structure TopicIn where
  topic_name : String
  topic_summary : String
deriving Repr, DecidableEq

/-- An element of the list `_process_topics` returns. -/
structure TopicOut where
  topic_id : Nat
  topic_name : String
  topic_summary : String
deriving Repr, DecidableEq

/-- State threaded through the `_process_topics` loop: the in-memory topic
cache (mutated in place in the source), the autoincrement counter of the
`topic` table, the `Topic` rows inserted by this transaction, the output
list, and `new_topics_count`. -/
structure TopicsState where
  topics : Catalog TopicRec
  nextId : Nat
  newRows : List TopicRec
  processed : List TopicOut
  newCount : Nat
deriving Repr, DecidableEq

/-- One iteration of the `_process_topics` loop: skip blank names, exact
match on the lower-cased stripped name, else fuzzy match at cutoff 0.7,
else insert a new `Topic` row and add it to the cache under the lower-cased
key.  The inner unreachable branch mirrors `resolveMemberIn`. -/
def processTopicStep (st : TopicsState) (t : TopicIn) : TopicsState :=
  let name := stripPy t.topic_name
  let summary := stripPy t.topic_summary
  if name = "" then st
  else
    let key := lowerPy name
    match dictLookup st.topics key with
    | some r => { st with processed := st.processed ++ [⟨r.id, r.name, summary⟩] }
    | none =>
      match getCloseMatches1 key (dictKeys st.topics) 7 10 with
      | some mk =>
        match dictLookup st.topics mk with
        | some r => { st with processed := st.processed ++ [⟨r.id, r.name, summary⟩] }
        | none => st
      | none =>
        { topics := dictInsert st.topics key ⟨st.nextId, name, summary⟩
          nextId := st.nextId + 1
          newRows := st.newRows ++ [⟨st.nextId, name, summary⟩]
          processed := st.processed ++ [⟨st.nextId, name, summary⟩]
          newCount := st.newCount + 1 }

/-- `_process_topics`: fold the loop body over the extracted topics. -/
def processTopics (topics : Catalog TopicRec) (nextId : Nat)
    (data : List TopicIn) : TopicsState :=
  data.foldl processTopicStep ⟨topics, nextId, [], [], 0⟩

/-! ## Task processing (`_process_tasks`) -/

/-- An element of the `tasks` extraction output, after the JSON boundary.
`deadline` is `none` when the JSON field was `null` or absent. -/
structure TaskIn where
  task_name : String
  task_description : String
  deadline : Option String
  assigned_to : List String
deriving Repr, DecidableEq

/-- A `tasks` table row; the deadline is kept as the raw string accepted by
`strptime`, whose output format is irrelevant to every claim. -/
structure TaskRow where
  task_id : Nat
  task_name : String
  task_description : String
  task_deadline : Option String
deriving Repr, DecidableEq

/-- An element of the list `_process_tasks` returns. -/
structure TaskOut where
  task_id : Nat
  task_name : String
  task_description : String
  deadline : Option String
  assignee_ids : List Nat
  assignee_names : List String
deriving Repr, DecidableEq

/-- State threaded through the `_process_tasks` loop. -/
structure TasksState where
  nextId : Nat
  newRows : List TaskRow
  processed : List TaskOut
deriving Repr, DecidableEq

/-- `member_lookup` of `_process_tasks`: a dict comprehension over the
already-matched members keyed by lower-cased name, then every entry of the
committee cache added on top. -/
def buildMemberLookup (matched : List MemberRec)
    (committee : Catalog MemberRec) : Catalog MemberRec :=
  committee.foldl (fun d p => dictInsert d p.1 p.2)
    (matched.foldl (fun d m => dictInsert d (lowerPy m.name) m) [])

/-- The deadline guard of `_process_tasks`:
`if deadline_str and deadline_str != 'null'` then `strptime`, where a
failed parse logs a warning and leaves the deadline `None`.  `parseDate`
stands for `strptime(_, "%Y-%m-%d")`. -/
def taskDeadline (parseDate : String → Option String)
    (deadline : Option String) : Option String :=
  match deadline with
  | some s => if s ≠ "" ∧ s ≠ "null" then parseDate s else none
  | none => none

/-- One iteration of the `_process_tasks` loop: skip blank names, resolve
each assignee against `member_lookup` (exact, then fuzzy at cutoff 0.7),
dropping unresolved assignees, then create the `Task` row regardless of how
many assignees resolved. -/
def processTaskStep (parseDate : String → Option String)
    (lookup : Catalog MemberRec) (st : TasksState) (t : TaskIn) : TasksState :=
  let name := stripPy t.task_name
  let desc := stripPy t.task_description
  if name = "" then st
  else
    let dl := taskDeadline parseDate t.deadline
    let resolved := t.assigned_to.foldl
      (fun (acc : List Nat × List String) assignee =>
        match resolveMemberIn lookup assignee with
        | some m => (acc.1 ++ [m.id], acc.2 ++ [m.name])
        | none => acc) ([], [])
    { nextId := st.nextId + 1
      newRows := st.newRows ++ [⟨st.nextId, name, desc, dl⟩]
      processed := st.processed ++ [⟨st.nextId, name, desc, dl, resolved.1, resolved.2⟩] }

/-- `_process_tasks`: fold the loop body over the extracted tasks. -/
def processTasks (parseDate : String → Option String)
    (lookup : Catalog MemberRec) (nextId : Nat) (data : List TaskIn) : TasksState :=
  data.foldl (processTaskStep parseDate lookup) ⟨nextId, [], []⟩

/-! ## Store model and `_insert_into_database` -/

/-- A `meeting` table row (the engine never passes a date; `created_at` is a
server default outside the engine's writes). -/
structure MeetingRow where
  meeting_id : Nat
  meeting_name : String
  meeting_type : String
  meeting_summary : String
deriving Repr, DecidableEq

/-- The relational store: row lists per table plus autoincrement counters.
Junction rows are id pairs; `task_members` rows are `(task_id, member_id)`. -/
structure DB where
  topics : List TopicRec
  meetings : List MeetingRow
  tasks : List TaskRow
  meeting_members : List (Nat × Nat)
  meeting_projects : List (Nat × Nat)
  meeting_topics : List (Nat × Nat)
  meeting_tasks : List (Nat × Nat)
  task_members : List (Nat × Nat)
  nextTopicId : Nat
  nextTaskId : Nat
  nextMeetingId : Nat
deriving Repr, DecidableEq

/-- One iteration of the task-junction loop of `_insert_into_database`: one
`meeting_tasks` row, and one `task_members` row per entry of
`assignee_ids` — with no de-duplication of the assignee ids. -/
def addTaskJunctions (mid : Nat) (d : DB) (t : TaskOut) : DB :=
  { d with
    meeting_tasks := d.meeting_tasks ++ [(mid, t.task_id)]
    task_members := d.task_members ++ t.assignee_ids.map (fun a => (t.task_id, a)) }

/-- `_insert_into_database`: insert the `Meeting` row, then the
meeting-level junction rows over `set(...)` of the id lists (modelled by
`List.dedup`; only the resulting row set matters, the iteration order of a
CPython set being unspecified), then the task junctions.  Returns the new
store and the generated meeting id. -/
def insertIntoDatabase (db : DB) (meeting_name meeting_type meeting_summary : String)
    (member_ids project_ids topic_ids : List Nat) (task_data : List TaskOut) :
    DB × Nat :=
  let mid := db.nextMeetingId
  let db1 := { db with
    meetings := db.meetings ++ [⟨mid, meeting_name, meeting_type, meeting_summary⟩]
    nextMeetingId := mid + 1
    meeting_members := db.meeting_members ++ member_ids.dedup.map (fun i => (mid, i))
    meeting_projects := db.meeting_projects ++ project_ids.dedup.map (fun i => (mid, i))
    meeting_topics := db.meeting_topics ++ topic_ids.dedup.map (fun i => (mid, i)) }
  (task_data.foldl (addTaskJunctions mid) db1, mid)

/-! ## Extraction client (`_call_llm`, `_parse_json_response`) and the JSON
boundary of `process_transcript` / `_extract_topics` / `_extract_tasks`.

The completion service is an input: `Except.error` stands for a raised /
timed-out call, `Except.ok s` for returned text `s`.  `json.loads` is a
function parameter producing a `JVal` or `none` on `JSONDecodeError`. -/

/-- The JSON values the engine's responses range over. -/
inductive JVal : Type where
  | jnull : JVal
  | jstr : String → JVal
  | jlist : List JVal → JVal
  | jdict : List (String × JVal) → JVal
deriving Inhabited

/-- `_call_llm`: returns the completion text, or `""` when the service call
raises (the `except` branch logs and returns the empty string). -/
def callLLM : Except Unit String → String
  | .ok s => s
  | .error _ => ""

/-- The response clean-up of `_parse_json_response`: strip, remove a leading
code fence (7 characters when tagged `json`, else 3), remove a trailing
fence, strip again. -/
def stripFences (response : String) : String :=
  let c0 := stripPy response
  let c1 := if startsWithPy c0 "```json" then dropPy c0 7
            else if startsWithPy c0 "```" then dropPy c0 3 else c0
  let c2 := if endsWithPy c1 "```" then dropRightPy c1 3 else c1
  stripPy c2

/-- `_parse_json_response`: parse the cleaned text, returning `{}` on a
`JSONDecodeError`. -/
def parseJsonResponse (jsonLoads : String → Option JVal) (response : String) : JVal :=
  match jsonLoads (stripFences response) with
  | some v => v
  | none => .jdict []

/-- `data.get(k, default)`: on a non-dict value the attribute access raises
(`AttributeError`), which the source does not catch. -/
def jGet (v : JVal) (k : String) (default : JVal) : Except Unit JVal :=
  match v with
  | .jdict fields => .ok (((fields.find? (fun p => p.1 == k)).map (fun p => p.2)).getD default)
  | _ => .error ()

/-- A value used where CPython requires `str` (`.lower()`, `.strip()`);
anything else raises. -/
def jStr : JVal → Except Unit String
  | .jstr s => .ok s
  | _ => .error ()

/-- Iterating a value as a list of names each later passed to `.lower()`:
a list must contain only strings; iterating a string yields its one-char
substrings; iterating a dict yields its keys; `null` is not iterable. -/
def jNames : JVal → Except Unit (List String)
  | .jstr s => .ok (s.data.map (fun c => ⟨[c]⟩))
  | .jlist xs => xs.mapM jStr
  | .jdict fields => .ok (fields.map (fun p => p.1))
  | .jnull => .error ()

/-- One element of the `topics` list: `topic.get(..)` plus the `str`
requirement of the later `.strip()` calls. -/
def jTopicIn (v : JVal) : Except Unit TopicIn := do
  let name ← jStr (← jGet v "topic_name" (.jstr ""))
  let summary ← jStr (← jGet v "topic_summary" (.jstr ""))
  pure ⟨name, summary⟩

/-- The `topics` value as the list `_process_topics` iterates.  In the
source, element accesses happen inside the per-item loop; the embedding
coerces up front, which relocates only the point of shape crashes, on which
no theorem depends.  Empty non-list iterables iterate to nothing. -/
def jTopicList : JVal → Except Unit (List TopicIn)
  | .jlist xs => xs.mapM jTopicIn
  | .jstr s => if s = "" then .ok [] else .error ()
  | .jdict [] => .ok []
  | .jdict (_ :: _) => .error ()
  | .jnull => .error ()

/-- The deadline value: absent or `null` (and falsy empties) give `None`; a
string is handed to the guard of `_process_tasks`; other values raise at
`strptime`. -/
def jDeadline : JVal → Except Unit (Option String)
  | .jnull => .ok none
  | .jstr s => .ok (some s)
  | .jlist [] => .ok none
  | .jlist (_ :: _) => .error ()
  | .jdict [] => .ok none
  | .jdict (_ :: _) => .error ()

/-- One element of the `tasks` list. -/
def jTaskIn (v : JVal) : Except Unit TaskIn := do
  let name ← jStr (← jGet v "task_name" (.jstr ""))
  let desc ← jStr (← jGet v "task_description" (.jstr ""))
  let dl ← jDeadline (← jGet v "deadline" .jnull)
  let assigned ← jNames (← jGet v "assigned_to" (.jlist []))
  pure ⟨name, desc, dl, assigned⟩

/-- The `tasks` value as the list `_process_tasks` iterates. -/
def jTaskList : JVal → Except Unit (List TaskIn)
  | .jlist xs => xs.mapM jTaskIn
  | .jstr s => if s = "" then .ok [] else .error ()
  | .jdict [] => .ok []
  | .jdict (_ :: _) => .error ()
  | .jnull => .error ()

/-- The four structure reads performed on the parsed extraction responses:
`members_projects.get('member_names'/'project_names', [])` in
`process_transcript`, `data.get('topics', [])` in `_extract_topics`, and
`data.get('tasks', [])` in `_extract_tasks`. -/
def extractShapes (mpJ topicsJ tasksJ : JVal) :
    Except Unit (List String × List String × List TopicIn × List TaskIn) := do
  let member_names ← jNames (← jGet mpJ "member_names" (.jlist []))
  let project_names ← jNames (← jGet mpJ "project_names" (.jlist []))
  let topicsData ← jTopicList (← jGet topicsJ "topics" (.jlist []))
  let tasksData ← jTaskList (← jGet tasksJ "tasks" (.jlist []))
  pure (member_names, project_names, topicsData, tasksData)

/-! ## Orchestrator (`process_transcript`) -/

/-- Outcomes of the four completion-service calls of one run, in source
order: members+projects, topics, tasks, summary. -/
structure LLMOutcomes where
  mp : Except Unit String
  topics : Except Unit String
  tasks : Except Unit String
  summary : Except Unit String

/-- `_read_transcript` with `errors='replace'` modelled byte-wise: ASCII
bytes decode to themselves, all other bytes to U+FFFD.  (CPython coalesces
some invalid multi-byte sequences into one replacement character; either
way a nonempty file decodes to a nonempty string and decoding never
raises.) -/
def decodeReplace (bytes : List Nat) : String :=
  ⟨bytes.map (fun b => if b < 128 then Char.ofNat b else Char.ofNat 0xFFFD)⟩

/-- How a `process_transcript` invocation can fail. -/
inductive RunError : Type where
  | readError : RunError
  | shapeError : RunError
  | persistError : RunError
deriving Repr, DecidableEq

/-- The dictionary `process_transcript` returns on success. -/
structure ProcessResult where
  meeting_id : Nat
  meeting_name : String
  meeting_type : String
  summary_length : Nat
  members_identified : Nat
  member_names : List String
  projects_linked : Nat
  project_names : List String
  topics_linked : Nat
  topic_names : List String
  new_topics_created : Nat
  tasks_created : Nat
  task_names : List String
deriving Repr, DecidableEq

/-- Decidable equality for `Except` results (used to evaluate concrete
runs). -/
instance exceptDecEq {ε α : Type} [DecidableEq ε] [DecidableEq α] :
    DecidableEq (Except ε α) := fun a b =>
  match a, b with
  | .ok x, .ok y =>
    if h : x = y then isTrue (by rw [h]) else isFalse (by intro hc; cases hc; exact h rfl)
  | .error x, .error y =>
    if h : x = y then isTrue (by rw [h]) else isFalse (by intro hc; cases hc; exact h rfl)
  | .ok _, .error _ => isFalse (by intro hc; cases hc)
  | .error _, .ok _ => isFalse (by intro hc; cases hc)

/-- Everything observable after a `process_transcript` invocation: the
in-memory caches, the store, and the returned value or raised error. -/
structure RunOutput where
  state : IntegState
  db : DB
  result : Except RunError ProcessResult
deriving Repr, DecidableEq

/-- Whether an `Except` is a success. -/
def exceptIsOk {ε α : Type} : Except ε α → Bool
  | .ok _ => true
  | .error _ => false

/-- `process_transcript`.  The file is `none` when unreadable (any `open` /
`read` exception), else its bytes.  `meeting_date` is accepted and
defaulted exactly as in the source, which never reads it afterwards.  The
three `Bool` flags are the commit outcomes of the three transactions
(topics, tasks, meeting+junctions); a failed commit leaves the store as it
was before that transaction and raises, while cache mutations made inside
the loop survive, as they do in the source. -/
def processTranscript
    (jsonLoads : String → Option JVal)
    (parseDate : String → Option String)
    (st : IntegState) (db : DB)
    (file : Option (List Nat))
    (meeting_name meeting_type : String)
    (meeting_date : Option Nat)
    (llm : LLMOutcomes)
    (topicsTxOk tasksTxOk meetingTxOk : Bool) : RunOutput :=
  let transcript := match file with
    | none => ""
    | some bs => decodeReplace bs
  if transcript = "" then ⟨st, db, .error .readError⟩
  else
    let _mdate := meeting_date.getD 0
    let mpJ := parseJsonResponse jsonLoads (callLLM llm.mp)
    let topicsJ := parseJsonResponse jsonLoads (callLLM llm.topics)
    let tasksJ := parseJsonResponse jsonLoads (callLLM llm.tasks)
    let summary := stripPy (callLLM llm.summary)
    match extractShapes mpJ topicsJ tasksJ with
    | .error _ => ⟨st, db, .error .shapeError⟩
    | .ok (member_names, project_names, topicsData, tasksData) =>
      let matched_members := matchMembers st.committee_members member_names
      let matched_projects := matchProjects st.projects project_names
      let tSt := processTopics st.topics db.nextTopicId topicsData
      let st1 := { st with topics := tSt.topics }
      if topicsTxOk = false then ⟨st1, db, .error .persistError⟩
      else
        let db1 := { db with topics := db.topics ++ tSt.newRows, nextTopicId := tSt.nextId }
        let lookup := buildMemberLookup matched_members st.committee_members
        let kSt := processTasks parseDate lookup db1.nextTaskId tasksData
        if tasksTxOk = false then ⟨st1, db1, .error .persistError⟩
        else
          let db2 := { db1 with tasks := db1.tasks ++ kSt.newRows, nextTaskId := kSt.nextId }
          if meetingTxOk = false then ⟨st1, db2, .error .persistError⟩
          else
            let ins := insertIntoDatabase db2 meeting_name meeting_type summary
              (matched_members.map (fun m => m.id))
              (matched_projects.map (fun p => p.id))
              (tSt.processed.map (fun t => t.topic_id)) kSt.processed
            ⟨st1, ins.1, .ok {
              meeting_id := ins.2
              meeting_name := meeting_name
              meeting_type := meeting_type
              summary_length := lenPy summary
              members_identified := matched_members.length
              member_names := matched_members.map (fun m => m.name)
              projects_linked := matched_projects.length
              project_names := matched_projects.map (fun p => p.name)
              topics_linked := tSt.processed.length
              topic_names := tSt.processed.map (fun t => t.topic_name)
              new_topics_created := tSt.newCount
              tasks_created := kSt.processed.length
              task_names := kSt.processed.map (fun t => t.task_name) }⟩

/-! ## Shared fixtures for concrete runs -/

/-- An empty store with all autoincrement counters at 1. -/
def db0 : DB := ⟨[], [], [], [], [], [], [], [], 1, 1, 1⟩

/-- An engine whose caches are all empty. -/
def st0 : IntegState := ⟨[], [], []⟩

/-- A JSON parser that rejects every string (in particular, as `json.loads`
does, the empty string). -/
def noLoads : String → Option JVal := fun _ => none

/-- A date parser that rejects every string. -/
def noDate : String → Option String := fun _ => none

/-- ASCII bytes of a string, as file content. -/
def strBytes (s : String) : List Nat := s.data.map (fun c => c.toNat)

/-- All four completion-service calls raise. -/
def llmAllFail : LLMOutcomes := ⟨.error (), .error (), .error (), .error ()⟩

/-- A one-member catalog: Alice with id 1. -/
def aliceRec : MemberRec := ⟨1, "Alice", "Tech", "Member"⟩

/-- The committee cache holding only Alice. -/
def aliceCat : Catalog MemberRec := [("alice", aliceRec)]

/-! ## Helper lemmas: ratios as rationals -/

lemma ratioDen_pos (x word : String) : 0 < ratioDen x word := by
  unfold ratioDen
  split
  · exact Nat.one_pos
  · omega

lemma seqRatioQ_le_iff {num den : Nat} (hden : 0 < den) (x word : String) :
    num * ratioDen x word ≤ ratioNum x word * den ↔
      (num : ℚ) / (den : ℚ) ≤ seqRatioQ x word := by
  unfold seqRatioQ
  rw [div_le_div_iff₀ (by exact_mod_cast hden) (by exact_mod_cast ratioDen_pos x word)]
  exact_mod_cast Iff.rfl

lemma seqRatioQ_lt_iff (x b word : String) :
    ratioNum b word * ratioDen x word < ratioNum x word * ratioDen b word ↔
      seqRatioQ b word < seqRatioQ x word := by
  unfold seqRatioQ
  rw [div_lt_div_iff₀ (by exact_mod_cast ratioDen_pos b word)
    (by exact_mod_cast ratioDen_pos x word)]
  exact_mod_cast Iff.rfl

lemma seqRatioQ_eq_of_cross (x b word : String)
    (h : ratioNum b word * ratioDen x word = ratioNum x word * ratioDen b word) :
    seqRatioQ b word = seqRatioQ x word := by
  unfold seqRatioQ
  rw [div_eq_div_iff (by exact_mod_cast (ratioDen_pos b word).ne' : (ratioDen b word : ℚ) ≠ 0)
    (by exact_mod_cast (ratioDen_pos x word).ne' : (ratioDen x word : ℚ) ≠ 0)]
  exact_mod_cast h

lemma seqRatioQ_le_of_cross (x b word : String)
    (h : ¬ ratioNum b word * ratioDen x word < ratioNum x word * ratioDen b word) :
    seqRatioQ x word ≤ seqRatioQ b word := by
  rcases le_or_lt (seqRatioQ x word) (seqRatioQ b word) with hle | hlt
  · exact hle
  · exact absurd ((seqRatioQ_lt_iff x b word).mpr hlt) h

/-! ## Helper lemmas: `get_close_matches` specification -/

lemma gcm_fold_some (word : String) (l : List String) (b : String) :
    ∃ r, l.foldl (gcmStep word) (some b) = some r ∧ (r = b ∨ r ∈ l) ∧
      seqRatioQ b word ≤ seqRatioQ r word ∧
      ∀ y ∈ l, seqRatioQ y word ≤ seqRatioQ r word := by
  induction l generalizing b with
  | nil => exact ⟨b, rfl, Or.inl rfl, le_refl _, by simp⟩
  | cons x l ih =>
    have hstep : ∃ c, gcmStep word (some b) x = some c ∧ (c = b ∨ c = x) ∧
        seqRatioQ b word ≤ seqRatioQ c word ∧ seqRatioQ x word ≤ seqRatioQ c word := by
      by_cases hcond : ratioNum b word * ratioDen x word < ratioNum x word * ratioDen b word ∨
          (ratioNum b word * ratioDen x word = ratioNum x word * ratioDen b word ∧
            strLtPy b x = true)
      · refine ⟨x, ?_, Or.inr rfl, ?_, le_refl _⟩
        · simp only [gcmStep, if_pos hcond]
        · rcases hcond with hlt | ⟨heq, _⟩
          · exact le_of_lt ((seqRatioQ_lt_iff x b word).mp hlt)
          · exact le_of_eq (seqRatioQ_eq_of_cross x b word heq)
      · refine ⟨b, ?_, Or.inl rfl, le_refl _, ?_⟩
        · simp only [gcmStep, if_neg hcond]
        · push_neg at hcond
          exact seqRatioQ_le_of_cross x b word (not_lt_of_le hcond.1)
    obtain ⟨c, hc, hcb, hbc, hxc⟩ := hstep
    obtain ⟨r, hr, hrmem, hcr, hall⟩ := ih c
    refine ⟨r, by rw [List.foldl_cons, hc]; exact hr, ?_, le_trans hbc hcr, ?_⟩
    · rcases hrmem with h | h
      · rcases hcb with h2 | h2
        · exact Or.inl (h.trans h2)
        · exact Or.inr (by rw [h, h2]; exact List.mem_cons_self x l)
      · exact Or.inr (List.mem_cons_of_mem x h)
    · intro y hy
      rcases List.mem_cons.mp hy with h | h
      · rw [h]; exact le_trans hxc hcr
      · exact hall y h

lemma gcm_spec_some {word : String} {keys : List String} {num den : Nat}
    (hden : 0 < den) {x : String}
    (h : getCloseMatches1 word keys num den = some x) :
    x ∈ keys ∧ (num : ℚ) / (den : ℚ) ≤ seqRatioQ x word ∧
      ∀ y ∈ keys, seqRatioQ y word ≤ seqRatioQ x word := by
  unfold getCloseMatches1 at h
  rcases hf : keys.filter (fun z => ratioGeB z word num den) with _ | ⟨f, rest⟩
  · rw [hf] at h
    simp at h
  · rw [hf] at h
    rw [List.foldl_cons] at h
    have hone : gcmStep word none f = some f := rfl
    rw [hone] at h
    obtain ⟨r, hr, hrmem, hfr, hall⟩ := gcm_fold_some word rest f
    rw [hr] at h
    injection h with hrx
    rw [hrx] at hrmem hfr hall
    have hxfilter : x ∈ keys.filter (fun z => ratioGeB z word num den) := by
      rw [hf]
      rcases hrmem with h2 | h2
      · rw [h2]; exact List.mem_cons_self f rest
      · exact List.mem_cons_of_mem f h2
    have hxkeys := (List.mem_filter.mp hxfilter).1
    have hxge : ratioGeB x word num den = true := (List.mem_filter.mp hxfilter).2
    have hxcut : (num : ℚ) / (den : ℚ) ≤ seqRatioQ x word := by
      unfold ratioGeB at hxge
      exact (seqRatioQ_le_iff hden x word).mp (of_decide_eq_true hxge)
    refine ⟨hxkeys, hxcut, ?_⟩
    intro y hy
    by_cases hyf : y ∈ keys.filter (fun z => ratioGeB z word num den)
    · rw [hf] at hyf
      rcases List.mem_cons.mp hyf with h2 | h2
      · rw [h2]; exact hfr
      · exact hall y h2
    · have hny : ¬ (ratioGeB y word num den = true) := fun hg =>
        hyf (List.mem_filter.mpr ⟨hy, hg⟩)
      unfold ratioGeB at hny
      have hlt : seqRatioQ y word < (num : ℚ) / (den : ℚ) := by
        by_contra hcon
        push_neg at hcon
        exact hny (decide_eq_true ((seqRatioQ_le_iff hden y word).mpr hcon))
      exact le_of_lt (lt_of_lt_of_le hlt hxcut)

lemma gcm_spec_none {word : String} {keys : List String} {num den : Nat}
    (hden : 0 < den) :
    getCloseMatches1 word keys num den = none ↔
      ∀ y ∈ keys, seqRatioQ y word < (num : ℚ) / (den : ℚ) := by
  unfold getCloseMatches1
  constructor
  · intro h y hy
    rcases hf : keys.filter (fun z => ratioGeB z word num den) with _ | ⟨f, rest⟩
    · have hyn : ¬ (ratioGeB y word num den = true) := fun hg => by
        have : y ∈ keys.filter (fun z => ratioGeB z word num den) :=
          List.mem_filter.mpr ⟨hy, hg⟩
        rw [hf] at this
        exact absurd this (List.not_mem_nil y)
      unfold ratioGeB at hyn
      by_contra hcon
      push_neg at hcon
      exact hyn (decide_eq_true ((seqRatioQ_le_iff hden y word).mpr hcon))
    · exfalso
      rw [hf, List.foldl_cons] at h
      have hone : gcmStep word none f = some f := rfl
      rw [hone] at h
      obtain ⟨r, hr, _, _, _⟩ := gcm_fold_some word rest f
      rw [hr] at h
      exact Option.some_ne_none r h
  · intro h
    have hnil : keys.filter (fun z => ratioGeB z word num den) = [] := by
      rw [List.filter_eq_nil_iff]
      intro y hy
      intro hg
      unfold ratioGeB at hg
      have hle := of_decide_eq_true hg
      exact absurd ((seqRatioQ_le_iff hden y word).mp hle) (not_le_of_lt (h y hy))
    rw [hnil]
    rfl

/-! ## Helper lemmas: resolution folds and dict updates -/

lemma matchFold_eq_filterMap {α : Type} (f : String → Option α) :
    ∀ (l : List String) (acc : List α),
      l.foldl (resolveFoldStep f) acc = acc ++ l.filterMap f := by
  intro l
  induction l with
  | nil => intro acc; simp
  | cons x l ih =>
    intro acc
    rw [List.foldl_cons, List.filterMap_cons]
    rcases hx : f x with _ | m
    · rw [show resolveFoldStep f acc x = acc by unfold resolveFoldStep; rw [hx]]
      simpa using ih acc
    · rw [show resolveFoldStep f acc x = acc ++ [m] by unfold resolveFoldStep; rw [hx]]
      rw [ih (acc ++ [m])]
      simp

lemma find?_key_map_update {α : Type} (k : String) (v : α) (d : Catalog α) :
    (d.map (fun p => if p.1 == k then (k, v) else p)).find? (fun p => p.1 == k) =
      (d.find? (fun p => p.1 == k)).map (fun _ => (k, v)) := by
  induction d with
  | nil => rfl
  | cons p d ih =>
    by_cases hp : (p.1 == k) = true
    · rw [List.map_cons, if_pos hp]
      simp only [List.find?, hp, beq_self_eq_true, Option.map_some']
    · rw [List.map_cons, if_neg hp]
      simp only [Bool.not_eq_true] at hp
      simp only [List.find?, hp]
      exact ih

lemma dictLookup_dictInsert_self {α : Type} (d : Catalog α) (k : String) (v : α) :
    dictLookup (dictInsert d k v) k = some v := by
  unfold dictInsert dictLookup
  split
  next hpres =>
    rw [find?_key_map_update]
    rcases hfind : d.find? (fun p => p.1 == k) with _ | p
    · rw [hfind] at hpres; simp at hpres
    · rw [hfind]; rfl
  next habs =>
    rcases hfind : d.find? (fun p => p.1 == k) with _ | p
    · rw [List.find?_append, hfind]
      simp
    · rw [hfind] at habs; simp at habs

lemma addTaskJunctions_foldl (mid : Nat) (l : List TaskOut) :
    ∀ (d : DB),
      (l.foldl (addTaskJunctions mid) d).topics = d.topics ∧
      (l.foldl (addTaskJunctions mid) d).meetings = d.meetings ∧
      (l.foldl (addTaskJunctions mid) d).tasks = d.tasks ∧
      (l.foldl (addTaskJunctions mid) d).meeting_members = d.meeting_members ∧
      (l.foldl (addTaskJunctions mid) d).meeting_projects = d.meeting_projects ∧
      (l.foldl (addTaskJunctions mid) d).meeting_topics = d.meeting_topics ∧
      (l.foldl (addTaskJunctions mid) d).nextTopicId = d.nextTopicId ∧
      (l.foldl (addTaskJunctions mid) d).nextTaskId = d.nextTaskId ∧
      (l.foldl (addTaskJunctions mid) d).nextMeetingId = d.nextMeetingId ∧
      (l.foldl (addTaskJunctions mid) d).meeting_tasks =
        d.meeting_tasks ++ l.map (fun t => (mid, t.task_id)) ∧
      (l.foldl (addTaskJunctions mid) d).task_members =
        d.task_members ++ l.flatMap (fun t => t.assignee_ids.map (fun a => (t.task_id, a))) := by
  induction l with
  | nil =>
    intro d
    refine ⟨rfl, rfl, rfl, rfl, rfl, rfl, rfl, rfl, rfl, by simp, by simp⟩
  | cons t l ih =>
    intro d
    rw [List.foldl_cons]
    obtain ⟨h1, h2, h3, h4, h5, h6, h7, h8, h9, h10, h11⟩ := ih (addTaskJunctions mid d t)
    refine ⟨h1, h2, h3, h4, h5, h6, h7, h8, h9, ?_, ?_⟩
    · rw [h10]
      simp [addTaskJunctions, List.append_assoc]
    · rw [h11]
      simp [addTaskJunctions, List.append_assoc]

/-! ## Claim theorems -/

set_option maxRecDepth 2000

/-- C10: the `meeting_date` argument of `process_transcript` is accepted
(and defaulted when absent) but never read afterwards: two invocations
identical except for `meeting_date` produce identical cache state, store
state, and returned result. -/
theorem C10_meeting_date_no_effect
    (p : String → Option JVal) (pd : String → Option String)
    (st : IntegState) (db : DB) (file : Option (List Nat)) (mn mt : String)
    (d1 d2 : Option Nat) (llm : LLMOutcomes) (t1 t2 t3 : Bool) :
    processTranscript p pd st db file mn mt d1 llm t1 t2 t3 =
      processTranscript p pd st db file mn mt d2 llm t1 t2 t3 := rfl

/-- C7 (amended): a transcript file that cannot be read at all — or whose
content decodes to the empty string — makes `process_transcript` raise
before anything else happens: the outcome is the read error with caches and
store untouched, independently of the completion-service outcomes (so no
extraction call can have been consumed).  An *undecodable* file, however,
does not abort: see the counterexample. -/
theorem C7_unreadable_aborts
    (p : String → Option JVal) (pd : String → Option String)
    (st : IntegState) (db : DB) (mn mt : String) (md : Option Nat)
    (llm : LLMOutcomes) (t1 t2 t3 : Bool) :
    processTranscript p pd st db none mn mt md llm t1 t2 t3 =
        ⟨st, db, .error .readError⟩
    ∧ processTranscript p pd st db (some []) mn mt md llm t1 t2 t3 =
        ⟨st, db, .error .readError⟩ := ⟨rfl, rfl⟩

/-- C7 (counterexample): a nonempty file consisting of the single invalid
UTF-8 byte `0xFF` is decoded with replacement characters
(`errors='replace'`), so `process_transcript` does *not* raise before
extraction — the run continues all the way to persistence and creates the
meeting. -/
theorem C7_cex_undecodable_proceeds :
    (processTranscript noLoads noDate st0 db0 (some [255]) "M" "executive"
        none llmAllFail true true true).result =
      .ok ⟨1, "M", "executive", 0, 0, [], 0, [], 0, [], 0, 0, []⟩
    ∧ (processTranscript noLoads noDate st0 db0 (some [255]) "M" "executive"
        none llmAllFail true true true).db.meetings =
      [⟨1, "M", "executive", ""⟩] := by decide

/-- C4: when `_process_topics` creates a new `Topic` for an unresolved
name, the record is added to the in-memory cache under the lower-cased
stripped name at once, so processing the same extracted topic again against
the resulting state exact-matches that insertion: it only appends the same
output element and leaves the cache, the inserted rows, and
`new_topics_count` unchanged — no second `Topic` record is ever created. -/
theorem C4_topic_idempotent (st : TopicsState) (t : TopicIn)
    (h : (processTopicStep st t).newCount = st.newCount + 1) :
    (processTopicStep st t).topics =
        dictInsert st.topics (lowerPy (stripPy t.topic_name))
          ⟨st.nextId, stripPy t.topic_name, stripPy t.topic_summary⟩
    ∧ processTopicStep (processTopicStep st t) t =
        { processTopicStep st t with
            processed := (processTopicStep st t).processed ++
              [⟨st.nextId, stripPy t.topic_name, stripPy t.topic_summary⟩] } := by
  by_cases hname : stripPy t.topic_name = ""
  · exfalso
    simp only [processTopicStep, if_pos hname] at h
    omega
  rcases hlook : dictLookup st.topics (lowerPy (stripPy t.topic_name)) with _ | r
  · rcases hfuzz : getCloseMatches1 (lowerPy (stripPy t.topic_name))
        (dictKeys st.topics) 7 10 with _ | mk
    · -- creation branch
      have hfirst : processTopicStep st t =
          ⟨dictInsert st.topics (lowerPy (stripPy t.topic_name))
              ⟨st.nextId, stripPy t.topic_name, stripPy t.topic_summary⟩,
            st.nextId + 1,
            st.newRows ++ [⟨st.nextId, stripPy t.topic_name, stripPy t.topic_summary⟩],
            st.processed ++ [⟨st.nextId, stripPy t.topic_name, stripPy t.topic_summary⟩],
            st.newCount + 1⟩ := by
        simp only [processTopicStep, if_neg hname, hlook, hfuzz]
      refine ⟨by rw [hfirst], ?_⟩
      rw [hfirst]
      simp only [processTopicStep, if_neg hname, dictLookup_dictInsert_self]
    · rcases hlook2 : dictLookup st.topics mk with _ | r2
      · exfalso
        simp only [processTopicStep, if_neg hname, hlook, hfuzz, hlook2] at h
        omega
      · exfalso
        simp only [processTopicStep, if_neg hname, hlook, hfuzz, hlook2] at h
        omega
  · exfalso
    simp only [processTopicStep, if_neg hname, hlook] at h
    omega

/-- C4 witness: a concrete creation followed by re-resolution. -/
theorem C4_witness :
    (processTopicStep ⟨[], 1, [], [], 0⟩ ⟨"Budget", "about budget"⟩).topics =
        dictInsert ([] : Catalog TopicRec) (lowerPy (stripPy "Budget"))
          ⟨1, stripPy "Budget", stripPy "about budget"⟩
    ∧ processTopicStep (processTopicStep ⟨[], 1, [], [], 0⟩ ⟨"Budget", "about budget"⟩)
          ⟨"Budget", "about budget"⟩ =
        { processTopicStep ⟨[], 1, [], [], 0⟩ ⟨"Budget", "about budget"⟩ with
            processed := (processTopicStep ⟨[], 1, [], [], 0⟩
                ⟨"Budget", "about budget"⟩).processed ++
              [⟨1, stripPy "Budget", stripPy "about budget"⟩] } :=
  C4_topic_idempotent ⟨[], 1, [], [], 0⟩ ⟨"Budget", "about budget"⟩ (by decide)

/-- C9: an extracted task with a nonempty name whose assignees all fail to
resolve is still created — its row is inserted and its processed entry
carries empty assignee lists — and the junction step then links it to the
meeting with exactly one `meeting_tasks` row and zero `task_members`
rows. -/
theorem C9_task_without_assignees (pd : String → Option String)
    (lookup : Catalog MemberRec) (st : TasksState) (t : TaskIn)
    (hname : stripPy t.task_name ≠ "")
    (hassign : ∀ a ∈ t.assigned_to, resolveMemberIn lookup a = none) :
    processTaskStep pd lookup st t =
      ⟨st.nextId + 1,
        st.newRows ++ [⟨st.nextId, stripPy t.task_name, stripPy t.task_description,
          taskDeadline pd t.deadline⟩],
        st.processed ++ [⟨st.nextId, stripPy t.task_name, stripPy t.task_description,
          taskDeadline pd t.deadline, [], []⟩]⟩
    ∧ ∀ (mid : Nat) (d : DB) (tk : TaskOut), tk.assignee_ids = [] →
        (addTaskJunctions mid d tk).meeting_tasks = d.meeting_tasks ++ [(mid, tk.task_id)] ∧
        (addTaskJunctions mid d tk).task_members = d.task_members := by
  constructor
  · have hfold : ∀ (l : List String) (acc : List Nat × List String),
        (∀ a ∈ l, resolveMemberIn lookup a = none) →
        l.foldl (fun (acc : List Nat × List String) assignee =>
          match resolveMemberIn lookup assignee with
          | some m => (acc.1 ++ [m.id], acc.2 ++ [m.name])
          | none => acc) acc = acc := by
      intro l
      induction l with
      | nil => intro acc _; rfl
      | cons a l ih =>
        intro acc hall
        rw [List.foldl_cons, hall a (List.mem_cons_self a l)]
        exact ih acc (fun y hy => hall y (List.mem_cons_of_mem a hy))
    simp only [processTaskStep, if_neg hname, hfold t.assigned_to ([], []) hassign]
  · intro mid d tk hk
    unfold addTaskJunctions
    rw [hk]
    exact ⟨rfl, by simp⟩

/-- C9 witness: a concrete task whose only assignee is unresolvable. -/
theorem C9_witness :
    processTaskStep noDate [] ⟨1, [], []⟩ ⟨"Deck", "", none, ["Zzyzx"]⟩ =
      ⟨2, [⟨1, "Deck", "", none⟩], [⟨1, "Deck", "", none, [], []⟩]⟩
    ∧ (addTaskJunctions 5 db0 ⟨1, "Deck", "", none, [], []⟩).task_members =
        db0.task_members := by
  have h := C9_task_without_assignees noDate [] ⟨1, [], []⟩
    ⟨"Deck", "", none, ["Zzyzx"]⟩ (by decide) (by decide)
  exact ⟨by rw [h.1]; decide, (h.2 5 db0 ⟨1, "Deck", "", none, [], []⟩ rfl).2⟩

/-- C8 (amended): the meeting-level junction inserts are driven by
de-duplicated id sets — one row per distinct member / project / topic id —
and one `meeting_tasks` row is written per task; but the `task_members`
inserts are one row per *occurrence* in a task's resolved assignee-id list,
with no de-duplication of that list. -/
theorem C8_junction_dedup (db : DB) (mn mt ms : String)
    (member_ids project_ids topic_ids : List Nat) (task_data : List TaskOut) :
    (insertIntoDatabase db mn mt ms member_ids project_ids topic_ids task_data).1.meeting_members
        = db.meeting_members ++ member_ids.dedup.map (fun i => (db.nextMeetingId, i))
    ∧ (insertIntoDatabase db mn mt ms member_ids project_ids topic_ids task_data).1.meeting_projects
        = db.meeting_projects ++ project_ids.dedup.map (fun i => (db.nextMeetingId, i))
    ∧ (insertIntoDatabase db mn mt ms member_ids project_ids topic_ids task_data).1.meeting_topics
        = db.meeting_topics ++ topic_ids.dedup.map (fun i => (db.nextMeetingId, i))
    ∧ member_ids.dedup.Nodup ∧ project_ids.dedup.Nodup ∧ topic_ids.dedup.Nodup
    ∧ (insertIntoDatabase db mn mt ms member_ids project_ids topic_ids task_data).1.meeting_tasks
        = db.meeting_tasks ++ task_data.map (fun t => (db.nextMeetingId, t.task_id))
    ∧ (insertIntoDatabase db mn mt ms member_ids project_ids topic_ids task_data).1.task_members
        = db.task_members ++
            task_data.flatMap (fun t => t.assignee_ids.map (fun a => (t.task_id, a))) := by
  obtain ⟨-, -, -, h4, h5, h6, -, -, -, h10, h11⟩ :=
    addTaskJunctions_foldl db.nextMeetingId task_data
      { db with
        meetings := db.meetings ++ [⟨db.nextMeetingId, mn, mt, ms⟩]
        nextMeetingId := db.nextMeetingId + 1
        meeting_members :=
          db.meeting_members ++ member_ids.dedup.map (fun i => (db.nextMeetingId, i))
        meeting_projects :=
          db.meeting_projects ++ project_ids.dedup.map (fun i => (db.nextMeetingId, i))
        meeting_topics :=
          db.meeting_topics ++ topic_ids.dedup.map (fun i => (db.nextMeetingId, i)) }
  exact ⟨h4, h5, h6, member_ids.nodup_dedup, project_ids.nodup_dedup,
    topic_ids.nodup_dedup, h10, h11⟩

/-- The tasks-extraction response of the C8 counterexample run: one task
whose `assigned_to` names both resolve to the same member. -/
def loadsC8 : String → Option JVal := fun s =>
  if s = "K8" then
    some (.jdict [("tasks", .jlist [.jdict
      [("task_name", .jstr "Deck"), ("task_description", .jstr "d"),
       ("deadline", .jnull),
       ("assigned_to", .jlist [.jstr "Alice", .jstr "ALICE"])]])])
  else none

/-- Service outcomes of the C8 counterexample run. -/
def llmC8 : LLMOutcomes := ⟨.error (), .error (), .ok "K8", .error ()⟩

/-- C8 (counterexample): a task assigned to "Alice" and "ALICE" — both
resolving to member id 1 — produces *two* `task_members` rows for the same
(task, member) pair in a successful run, refuting "at most one row per
pair". -/
theorem C8_cex_duplicate_task_member :
    (processTranscript loadsC8 noDate ⟨aliceCat, [], []⟩ db0 (some (strBytes "notes"))
        "M" "executive" none llmC8 true true true).db.task_members = [(1, 1), (1, 1)]
    ∧ exceptIsOk (processTranscript loadsC8 noDate ⟨aliceCat, [], []⟩ db0
        (some (strBytes "notes")) "M" "executive" none llmC8 true true true).result
      = true := by decide

/-- The members+projects response of the C5 run: extracted names "Alice"
and "Zzyzx" with only Alice in the catalog. -/
def loadsC5 : String → Option JVal := fun s =>
  if s = "M5" then
    some (.jdict [("member_names", .jlist [.jstr "Alice", .jstr "Zzyzx"]),
                  ("project_names", .jlist [])])
  else none

/-- Service outcomes of the C5 run. -/
def llmC5 : LLMOutcomes := ⟨.ok "M5", .error (), .error (), .error ()⟩

/-- C5: member and project resolution returns exactly the records of the
names that resolve (exactly or fuzzily), silently dropping every unresolved
name — it is a total function, never an error.  Concretely, extracting
["Alice", "Zzyzx"] against a catalog holding only Alice yields
`member_names = ["Alice"]` and `members_identified = 1`. -/
theorem C5_unresolved_names_dropped :
    (∀ (cat : Catalog MemberRec) (names : List String),
        matchMembers cat names = names.filterMap (resolveMemberIn cat))
    ∧ (∀ (cat : Catalog ProjectRec) (names : List String),
        matchProjects cat names = names.filterMap (resolveProjectIn cat))
    ∧ (processTranscript loadsC5 noDate ⟨aliceCat, [], []⟩ db0 (some (strBytes "notes"))
          "M" "executive" none llmC5 true true true).result =
        .ok ⟨1, "M", "executive", 0, 1, ["Alice"], 0, [], 0, [], 0, 0, []⟩ := by
  refine ⟨?_, ?_, by decide⟩
  · intro cat names
    unfold matchMembers
    rw [matchFold_eq_filterMap (resolveMemberIn cat) names []]
    exact List.nil_append _
  · intro cat names
    unfold matchProjects
    rw [matchFold_eq_filterMap (resolveProjectIn cat) names []]
    exact List.nil_append _

/-- A lower-cased catalog key at similarity ratio exactly 13/20 = 0.65 to
`ratio065Word`: the 13-character common prefix is the only matching block
of the two 20-character strings, giving ratio 2·13/40. -/
def ratio065Key : String := "abcdefghijklm0000000"

/-- The extracted name paired with `ratio065Key` (it is its own
lower-casing). -/
def ratio065Word : String := "abcdefghijklm1111111"

/-- C3: exact lower-cased lookup bypasses fuzzy matching for members and
projects; a fuzzy candidate is returned only if its ratio meets the cutoff
(and it is then the best candidate), and no candidate is returned iff every
candidate is strictly below the cutoff; at ratio exactly 13/20 = 0.65 a
candidate resolves under the project cutoff 0.6 but not under the
member/topic cutoff 0.7 (for topics, the fuzzy miss creates a new record
instead). -/
theorem C3_resolution_thresholds :
    (∀ (cat : Catalog MemberRec) (n : String) (m : MemberRec),
        dictLookup cat (lowerPy n) = some m → resolveMemberIn cat n = some m)
    ∧ (∀ (cat : Catalog ProjectRec) (n : String) (q : ProjectRec),
        dictLookup cat (lowerPy n) = some q → resolveProjectIn cat n = some q)
    ∧ (∀ (word : String) (keys : List String) (num den : Nat) (x : String), 0 < den →
        getCloseMatches1 word keys num den = some x →
          x ∈ keys ∧ (num : ℚ) / (den : ℚ) ≤ seqRatioQ x word ∧
            ∀ y ∈ keys, seqRatioQ y word ≤ seqRatioQ x word)
    ∧ (∀ (word : String) (keys : List String) (num den : Nat), 0 < den →
        (getCloseMatches1 word keys num den = none ↔
          ∀ y ∈ keys, seqRatioQ y word < (num : ℚ) / (den : ℚ)))
    ∧ seqRatioQ ratio065Key ratio065Word = 13 / 20
    ∧ resolveProjectIn [(ratio065Key, ⟨3, "P", ""⟩)] ratio065Word = some ⟨3, "P", ""⟩
    ∧ resolveMemberIn [(ratio065Key, ⟨4, "N", "S", "R"⟩)] ratio065Word = none
    ∧ (processTopicStep ⟨[(ratio065Key, ⟨5, "T", ""⟩)], 10, [], [], 0⟩
        ⟨ratio065Word, "s"⟩).newCount = 1 := by
  refine ⟨?_, ?_, ?_, ?_, ?_, by decide, by decide, by decide⟩
  · intro cat n m h
    unfold resolveMemberIn
    simp only [h]
  · intro cat n q h
    unfold resolveProjectIn
    simp only [h]
  · intro word keys num den x hden h
    exact gcm_spec_some hden h
  · intro word keys num den hden
    exact gcm_spec_none hden
  · have hn : ratioNum ratio065Key ratio065Word = 26 := by decide
    have hd : ratioDen ratio065Key ratio065Word = 40 := by decide
    unfold seqRatioQ
    rw [hn, hd]
    norm_num

/-- C3 witness: concrete instances of the exact-match bypass and of the
fuzzy acceptance test. -/
theorem C3_witness :
    resolveMemberIn aliceCat "ALICE" = some aliceRec
    ∧ getCloseMatches1 "zzyzx" ["alice"] 7 10 = none := by
  refine ⟨C3_resolution_thresholds.1 aliceCat "ALICE" aliceRec (by decide), ?_⟩
  refine (C3_resolution_thresholds.2.2.2.1 "zzyzx" ["alice"] 7 10 (by norm_num)).mpr ?_
  intro y hy
  rcases List.mem_singleton.mp hy with rfl
  have hn : ratioNum "alice" "zzyzx" = 0 := by decide
  have hd : ratioDen "alice" "zzyzx" = 10 := by decide
  unfold seqRatioQ
  rw [hn, hd]
  norm_num

/-- The topics-extraction response of the C1 counterexample run: one new
topic not in the catalog. -/
def loadsC1 : String → Option JVal := fun s =>
  if s = "T1" then
    some (.jdict [("topics", .jlist [.jdict
      [("topic_name", .jstr "New Topic"), ("topic_summary", .jstr "s")]])])
  else none

/-- Service outcomes of the C1 counterexample run. -/
def llmC1 : LLMOutcomes := ⟨.error (), .ok "T1", .error (), .error ()⟩

/-- C1 (counterexample): the run writes through *three* separate
transactions (`_process_topics`, `_process_tasks`,
`_insert_into_database`), not one.  With the final meeting transaction
failing, the `Topic` row created earlier in the run is still observable in
the store even though no `Meeting` row is — refuting "all writes of the run
are in exactly one transactional unit / no newly created Topic row is
observable after a persistence failure". -/
theorem C1_cex_topic_survives_persist_failure :
    (processTranscript loadsC1 noDate st0 db0 (some (strBytes "notes"))
        "Weekly" "executive" none llmC1 true true false).db.topics =
      [⟨1, "New Topic", "s"⟩]
    ∧ (processTranscript loadsC1 noDate st0 db0 (some (strBytes "notes"))
        "Weekly" "executive" none llmC1 true true false).db.meetings = []
    ∧ (processTranscript loadsC1 noDate st0 db0 (some (strBytes "notes"))
        "Weekly" "executive" none llmC1 true true false).result =
      .error .persistError := by decide

/-- C1 (amended): the meeting transaction (`_insert_into_database`) is
itself atomic — whenever it fails, the run raises and the `meeting` table
and every junction table are exactly as before the call, so no partial
meeting is observable; the rows committed by the earlier topic and task
transactions are what survives (see the counterexample). -/
theorem C1_meeting_transaction_atomic
    (p : String → Option JVal) (pd : String → Option String)
    (st : IntegState) (db : DB) (file : Option (List Nat)) (mn mt : String)
    (md : Option Nat) (llm : LLMOutcomes) (t1 t2 : Bool) :
    (processTranscript p pd st db file mn mt md llm t1 t2 false).db.meetings = db.meetings
    ∧ (processTranscript p pd st db file mn mt md llm t1 t2 false).db.meeting_members =
        db.meeting_members
    ∧ (processTranscript p pd st db file mn mt md llm t1 t2 false).db.meeting_projects =
        db.meeting_projects
    ∧ (processTranscript p pd st db file mn mt md llm t1 t2 false).db.meeting_topics =
        db.meeting_topics
    ∧ (processTranscript p pd st db file mn mt md llm t1 t2 false).db.meeting_tasks =
        db.meeting_tasks
    ∧ (processTranscript p pd st db file mn mt md llm t1 t2 false).db.task_members =
        db.task_members
    ∧ exceptIsOk (processTranscript p pd st db file mn mt md llm t1 t2 false).result =
        false := by
  simp only [processTranscript]
  split
  · exact ⟨rfl, rfl, rfl, rfl, rfl, rfl, rfl⟩
  · split
    · exact ⟨rfl, rfl, rfl, rfl, rfl, rfl, rfl⟩
    · split
      · exact ⟨rfl, rfl, rfl, rfl, rfl, rfl, rfl⟩
      · split
        · exact ⟨rfl, rfl, rfl, rfl, rfl, rfl, rfl⟩
        · exact ⟨rfl, rfl, rfl, rfl, rfl, rfl, rfl⟩

/-- C2 (counterexample): `process_transcript` performs no validation of the
meeting name or type: a call with the empty name and the type "bogus" —
which is outside the `MEETING_TYPES` enumeration — still creates the
`Meeting` row, refuting "a call with an empty name or a type outside the
enumeration never creates a Meeting". -/
theorem C2_cex_no_validation :
    (processTranscript noLoads noDate st0 db0 (some (strBytes "notes"))
        "" "bogus" none llmAllFail true true true).db.meetings =
      [⟨1, "", "bogus", ""⟩]
    ∧ MEETING_TYPES.contains "bogus" = false
    ∧ exceptIsOk (processTranscript noLoads noDate st0 db0 (some (strBytes "notes"))
        "" "bogus" none llmAllFail true true true).result = true := by decide

/-- C2 (amended): the engine propagates `meeting_name` and `meeting_type`
verbatim into the `Meeting` row and the returned result, with no
validation of its own: every successful run appends exactly one meeting row
carrying the given name and type, whatever they are.  (The enumeration is
enforced only by the calling interfaces: the CLI prompt and the bot's
choice list.) -/
theorem C2_name_type_propagate
    (p : String → Option JVal) (pd : String → Option String)
    (st : IntegState) (db : DB) (file : Option (List Nat)) (mn mt : String)
    (md : Option Nat) (llm : LLMOutcomes) (t1 t2 t3 : Bool)
    (st' : IntegState) (db' : DB) (r : ProcessResult)
    (h : processTranscript p pd st db file mn mt md llm t1 t2 t3 = ⟨st', db', .ok r⟩) :
    r.meeting_name = mn ∧ r.meeting_type = mt ∧
      ∃ s, db'.meetings = db.meetings ++ [⟨db.nextMeetingId, mn, mt, s⟩] := by
  simp only [processTranscript] at h
  split at h
  next => exact absurd h (by simp)
  next hread =>
  split at h
  next => exact absurd h (by simp)
  next mns pns tops tks hshape =>
  split at h
  next => exact absurd h (by simp)
  next ht1 =>
  split at h
  next => exact absurd h (by simp)
  next ht2 =>
  split at h
  next => exact absurd h (by simp)
  next ht3 =>
  injection h with hst hdb hres
  injection hres with hr
  subst hdb
  subst hr
  refine ⟨rfl, rfl, ⟨stripPy (callLLM llm.summary), ?_⟩⟩
  simp only [insertIntoDatabase]
  rw [(addTaskJunctions_foldl _ _ _).2.1]

/-- C2 witness: a successful concrete run, exhibiting the verbatim
propagation. -/
theorem C2_witness :
    ("M" : String) = "M" ∧ ("executive" : String) = "executive" ∧
      ∃ s, ([⟨1, "M", "executive", ""⟩] : List MeetingRow) =
        db0.meetings ++ [⟨db0.nextMeetingId, "M", "executive", s⟩] := by
  have h := C2_name_type_propagate noLoads noDate st0 db0 (some (strBytes "notes"))
    "M" "executive" none llmAllFail true true true
    st0 ⟨[], [⟨1, "M", "executive", ""⟩], [], [], [], [], [], [], 1, 1, 2⟩
    ⟨1, "M", "executive", 0, 0, [], 0, [], 0, [], 0, 0, []⟩ (by decide)
  exact ⟨rfl, rfl, h.2.2⟩

/-- The members+projects response of the C6 counterexample run: valid JSON
that is a top-level array, not the expected object. -/
def loadsC6 : String → Option JVal := fun s =>
  if s = "[]" then some (.jlist []) else none

/-- Service outcomes of the C6 counterexample run. -/
def llmC6 : LLMOutcomes := ⟨.ok "[]", .error (), .error (), .error ()⟩

/-- C6 (counterexample): when the members+projects response parses as valid
JSON of the wrong shape (a top-level array), the `.get` attribute access
raises and the error propagates: the run aborts with nothing written,
instead of treating the category as empty and continuing — refuting the
claim for structure mismatches that are still valid JSON. -/
theorem C6_cex_shape_mismatch_aborts :
    processTranscript loadsC6 noDate st0 db0 (some (strBytes "notes")) "M" "executive"
        none llmC6 true true true = ⟨st0, db0, .error .shapeError⟩ := by decide

/-- C6 (amended): a raised completion-service call yields the empty string
(`_call_llm`), and a response that fails to parse as JSON yields `{}`
(`_parse_json_response`), so with every category's response unparseable the
run still reaches persistence with all categories empty; but a response
that parses as JSON of an unexpected shape raises instead (see the
counterexample). -/
theorem C6_degraded_extraction
    (p : String → Option JVal) (pd : String → Option String)
    (st : IntegState) (db : DB) (bs : List Nat) (mn mt : String) (md : Option Nat)
    (llm : LLMOutcomes)
    (hfile : decodeReplace bs ≠ "")
    (hmp : p (stripFences (callLLM llm.mp)) = none)
    (htop : p (stripFences (callLLM llm.topics)) = none)
    (htask : p (stripFences (callLLM llm.tasks)) = none) :
    callLLM (Except.error ()) = ""
    ∧ (processTranscript p pd st db (some bs) mn mt md llm true true true).result =
        .ok { meeting_id := db.nextMeetingId, meeting_name := mn, meeting_type := mt
              summary_length := lenPy (stripPy (callLLM llm.summary))
              members_identified := 0, member_names := [], projects_linked := 0
              project_names := [], topics_linked := 0, topic_names := []
              new_topics_created := 0, tasks_created := 0, task_names := [] }
    ∧ (processTranscript p pd st db (some bs) mn mt md llm true true true).db.meetings =
        db.meetings ++ [⟨db.nextMeetingId, mn, mt, stripPy (callLLM llm.summary)⟩] := by
  refine ⟨rfl, ?_, ?_⟩ <;>
  · simp only [processTranscript, parseJsonResponse, hmp, htop, htask]
    rw [if_neg hfile]
    rfl

/-- C6 witness: a concrete run with every completion-service call
raising. -/
theorem C6_witness :
    (processTranscript noLoads noDate st0 db0 (some (strBytes "hi")) "M" "executive"
        none llmAllFail true true true).result =
      .ok ⟨1, "M", "executive", 0, 0, [], 0, [], 0, [], 0, 0, []⟩ := by
  have h := C6_degraded_extraction noLoads noDate st0 db0 (strBytes "hi") "M" "executive"
    none llmAllFail (by decide) rfl rfl rfl
  exact h.2.1

end SecretaryAI
